import Mathlib

/-!
Verification of the alphafold2 MCP repository against its specification.

The Python sources are shallowly embedded:
* `scripts/lib/utils.py` — command construction (`build_alphafold_command`);
* `scripts/lib/io.py` — FASTA load/save and content analysis;
* `scripts/batch_prediction.py` — batch counters and file discovery;
* `src/server.py` — submit-tool argument/name construction.

The background job manager (`jobs/manager.py`) is imported by
`src/server.py` but its code is not part of the available sources, so the
job-manager state machine and query API are modelled from the spec; those
definitions carry a `Modelled from the spec:` doc comment.
-/

namespace AF2

/-! ### Argument values (Python kwargs values: str, int or bool) -/

/-- A value that can appear in the keyword-argument mapping passed to
`build_alphafold_command` (`scripts/lib/utils.py`): a string, an integer or a
boolean.  An absent argument is `Option.none` at the use site. -/
inductive ArgValue where
  | str (s : String)
  | int (n : Int)
  | bool (b : Bool)
  deriving DecidableEq, Repr

/-- Python `str(value)` for the values that can reach the `--key=value`
rendering branch (booleans are intercepted earlier in the source). -/
def argValueStr : ArgValue → String
  | .str s => s
  | .int n => toString n
  | .bool b => if b then "True" else "False"

/-- The `key.replace('_', '-')` step of `build_alphafold_command`: the pattern and
replacement are single characters, so the replacement is character-wise. -/
def cliKey (k : String) : String :=
  String.mk (k.data.map (fun c => if c = '_' then '-' else c))

/-- One iteration of the `for key, value in kwargs.items()` loop of
`build_alphafold_command` (`scripts/lib/utils.py` lines 58–66): `None` is
skipped, a boolean is rendered as a presence-only `--key` flag when true and
nothing when false, and any other value as `--key=value` with underscores in
the key replaced by hyphens. -/
def renderKwarg : String × Option ArgValue → List String
  | (_, none) => []
  | (k, some (.bool b)) => if b then ["--" ++ cliKey k] else []
  | (k, some v) => ["--" ++ cliKey k ++ "=" ++ argValueStr v]

/-- Embedding of `build_alphafold_command` from `scripts/lib/utils.py`: the fixed tokens
are emitted with their declared (underscored) names; `data_dir` is guarded by
Python truthiness (`if data_dir:`, so `None` and the empty string are both
omitted), `num_predictions_per_model` by `is not None`, and the remaining
keyword arguments by `renderKwarg`. -/
def build_alphafold_command (fasta_path output_dir alphafold_script : String)
    (data_dir : Option String)
    (model_preset db_preset max_template_date : String)
    (num_predictions_per_model : Option Int)
    (kwargs : List (String × Option ArgValue)) : List String :=
  (["python", alphafold_script,
    "--fasta_paths=" ++ fasta_path,
    "--output_dir=" ++ output_dir,
    "--model_preset=" ++ model_preset,
    "--db_preset=" ++ db_preset,
    "--max_template_date=" ++ max_template_date]
  ++ (match data_dir with
      | some d => if d = "" then [] else ["--data_dir=" ++ d]
      | none => [])
  ++ (match num_predictions_per_model with
      | some n => ["--num_predictions_per_model=" ++ toString n]
      | none => []))
  ++ kwargs.flatMap renderKwarg

/-- Recogniser for boolean argument values. -/
def ArgValue.isBool : ArgValue → Bool
  | .bool _ => true
  | _ => false

/-! ### FASTA I/O (`scripts/lib/io.py`)

A text file is modelled as the list of its lines, each line a `List Char`
(the Python reader iterates lines and the writer emits whole lines; this is
exact whenever no header or sequence contains a line-breaking character,
which the theorems below hypothesise). -/

/-- Python `str.isspace` characters relevant to `str.strip()` in the ASCII
range used by the sources. -/
def isPyWhitespace (c : Char) : Bool :=
  c = ' ' || c = '\t' || c = '\n' || c = '\r' || c = '\x0b' || c = '\x0c'

/-- Python `line.strip()` on a line of characters. -/
def stripChars (l : List Char) : List Char :=
  ((l.dropWhile isPyWhitespace).reverse.dropWhile isPyWhitespace).reverse

/-- Python dict assignment `d[k] = v`: overwrite in place if the key exists,
otherwise append at the end (insertion order is preserved). -/
def dictInsert (d : List (List Char × List Char)) (k v : List Char) :
    List (List Char × List Char) :=
  if d.any (fun p => p.1 = k) then
    d.map (fun p => if p.1 = k then (k, v) else p)
  else d ++ [(k, v)]

/-- The "save previous sequence" step of `load_fasta`: Python's
`if current_header:` skips both a missing header and an empty one. -/
def flushEntry (d : List (List Char × List Char)) (cur : Option (List Char))
    (acc : List Char) : List (List Char × List Char) :=
  match cur with
  | some h => if h = [] then d else dictInsert d h acc
  | none => d

/-- The line loop of `load_fasta` (`scripts/lib/io.py` lines 35–50): each
line is stripped; a `>` line flushes the pending entry and starts a new one
(header = line without the `>`), a non-empty line extends the pending
sequence, a blank line is skipped; at end of file the pending entry is
flushed. -/
def loadAux : List (List Char) → List (List Char × List Char) →
    Option (List Char) → List Char → List (List Char × List Char)
  | [], d, cur, acc => flushEntry d cur acc
  | line :: rest, d, cur, acc =>
    if (stripChars line).head? = some '>' then
      loadAux rest (flushEntry d cur acc) (some ((stripChars line).drop 1)) []
    else if stripChars line = [] then
      loadAux rest d cur acc
    else
      loadAux rest d cur (acc ++ stripChars line)

/-- Embedding of `load_fasta` from `scripts/lib/io.py`, on a file given as its lines. -/
def load_fasta (lines : List (List Char)) : List (List Char × List Char) :=
  loadAux lines [] none []

/-- The `for i in range(0, len(sequence), 80)` wrapping loop of `save_fasta`:
the slice `sequence[i:i+80]` for each multiple `i = 80*j` of the step below
the length (so no chunks for the empty sequence). -/
def chunks80 (s : List Char) : List (List Char) :=
  (List.range ((s.length + 79) / 80)).map (fun j => (s.drop (80 * j)).take 80)

/-- Embedding of `save_fasta` from `scripts/lib/io.py`, producing the file as its lines:
for each entry, a header line (prefixed with `>` unless already present)
followed by the sequence wrapped at 80 characters. -/
def save_fasta (m : List (List Char × List Char)) : List (List Char) :=
  m.flatMap (fun p =>
    (if p.1.head? = some '>' then p.1 else '>' :: p.1) :: chunks80 p.2)

/-- A header suitable for the `save_fasta`/`load_fasta` round trip: non-empty,
no leading `>`, no leading or trailing whitespace, and free of the
line-breaking characters (so the line model of the file is exact). -/
def GoodHeader (h : List Char) : Prop :=
  h ≠ [] ∧ h.head? ≠ some '>' ∧ h.dropWhile isPyWhitespace = h
  ∧ h.reverse.dropWhile isPyWhitespace = h.reverse
  ∧ ∀ c ∈ h, c ≠ '\n' ∧ c ≠ '\r'

instance (h : List Char) : Decidable (GoodHeader h) :=
  inferInstanceAs (Decidable (h ≠ [] ∧ h.head? ≠ some '>'
    ∧ h.dropWhile isPyWhitespace = h
    ∧ h.reverse.dropWhile isPyWhitespace = h.reverse
    ∧ ∀ c ∈ h, c ≠ '\n' ∧ c ≠ '\r'))

/-- A sequence suitable for the round trip: a possibly empty run of
non-whitespace characters other than `>`. -/
def GoodSeq (s : List Char) : Prop :=
  ∀ c ∈ s, isPyWhitespace c = false ∧ c ≠ '>'

instance (s : List Char) : Decidable (GoodSeq s) :=
  inferInstanceAs (Decidable (∀ c ∈ s, isPyWhitespace c = false ∧ c ≠ '>'))

/-! ### FASTA content analysis (`scripts/lib/io.py`, `analyze_fasta_content`) -/

/-- The dictionary returned by `analyze_fasta_content`. -/
structure FastaAnalysis where
  num_sequences : Nat
  total_length : Nat
  sequences : List (String × Nat)
  is_multimer : Bool
  complex_type : String
  deriving DecidableEq, Repr

/-- Embedding of `analyze_fasta_content` from `scripts/lib/io.py`, applied to the
header-to-sequence dictionary produced by `load_fasta` (an insertion-ordered
association list with distinct headers). -/
def analyze_fasta_content (sequences : List (String × String)) : FastaAnalysis :=
  let sequence_info := sequences.map (fun p => (p.1, p.2.length))
  let num_sequences := sequences.length
  let total_length := (sequence_info.map Prod.snd).sum
  let seq_values := sequences.map Prod.snd
  let complex_type :=
    if num_sequences = 1 then "monomer"
    else if num_sequences = 2 then
      if seq_values.getD 0 "" = seq_values.getD 1 "" then "homodimer"
      else "heterodimer"
    else
      if seq_values.all (fun s => s == seq_values.headD "") then
        "homo-" ++ toString num_sequences ++ "mer"
      else "multimer"
  { num_sequences := num_sequences, total_length := total_length,
    sequences := sequence_info, is_multimer := decide (num_sequences > 1),
    complex_type := complex_type }

/-! ### Batch prediction (`scripts/batch_prediction.py`) -/

/-- The extension list of `find_fasta_files`. -/
def fasta_extensions : List String := [".fasta", ".fa", ".fas", ".faa"]

/-- Python `f.endswith(ext)`. -/
def strEndsWith (f ext : String) : Bool :=
  ext.data.isSuffixOf f.data

/-- Embedding of `find_fasta_files` from `scripts/batch_prediction.py`: collect the
directory entries matching each extension glob in turn, then sort the
combined list (Python `sorted`, modelled by a stable insertion sort). -/
def find_fasta_files (listing : List String) : List String :=
  (fasta_extensions.flatMap (fun ext =>
    listing.filter (fun f => strEndsWith f ext))).insertionSort (· ≤ ·)

/-- Outcome of `process_single_file` for one FASTA file: the analysis on
success, or the caught exception's message on failure (the file I/O itself is
external, so the per-file outcome is a parameter of the batch run). -/
inductive ProcResult where
  | ok (file : String) (analysis : FastaAnalysis)
  | err (file : String) (msg : String)
  deriving DecidableEq, Repr

/-- The counters and `processed` list accumulated by the file loop of
`run_batch_prediction` (`scripts/batch_prediction.py` lines 212–246). -/
structure BatchCounters where
  monomer_count : Nat
  multimer_count : Nat
  error_count : Nat
  processed : List ProcResult
  deriving DecidableEq, Repr

/-- One iteration of the `run_batch_prediction` file loop: append the result
to `processed`, then bump the multimer, monomer or error counter. -/
def batchStep (st : BatchCounters) (r : ProcResult) : BatchCounters :=
  match r with
  | .ok _ a =>
    if a.is_multimer then
      { st with multimer_count := st.multimer_count + 1,
                processed := st.processed ++ [r] }
    else
      { st with monomer_count := st.monomer_count + 1,
                processed := st.processed ++ [r] }
  | .err _ _ =>
    { st with error_count := st.error_count + 1,
              processed := st.processed ++ [r] }

/-- Return value of `run_batch_prediction`: the early "no FASTA files" record
(which carries no counters), or the full summary record. -/
inductive BatchResult where
  | noFiles (error : String)
  | ran (success : Bool) (total_files monomer_count multimer_count error_count : Nat)
      (processed : List ProcResult)
  deriving DecidableEq, Repr

/-- The core of `run_batch_prediction` (`scripts/batch_prediction.py` lines
202–278): find the FASTA files, return the "no files" record if there are
none, otherwise run the counting loop over the sorted files and assemble the
summary, whose `success` field is `error_count == 0`. -/
def run_batch_prediction (listing : List String) (proc : String → ProcResult) :
    BatchResult :=
  let fasta_files := find_fasta_files listing
  if fasta_files = [] then .noFiles "No FASTA files found"
  else
    let st := fasta_files.foldl (fun st f => batchStep st (proc f)) ⟨0, 0, 0, []⟩
    .ran (decide (st.error_count = 0)) fasta_files.length
      st.monomer_count st.multimer_count st.error_count st.processed

/-! ### Job manager (spec-modelled)

`src/server.py` and `test_server.py` import the job manager from
`jobs.manager`, a module that is not among the available sources; the
definitions below are therefore modelled from the specification
(spec §3, §4.2, §4.4, §4.5, §7). -/

/-- Modelled from the spec: the five job states of the missing
`jobs/manager.py` (spec §3, §4.4). -/
inductive JobStatus where
  | pending | running | completed | failed | cancelled
  deriving DecidableEq, Repr

/-- Modelled from the spec: `completed`, `failed` and `cancelled` are the
terminal states (spec §4.4). -/
def isTerminal : JobStatus → Bool
  | .completed => true
  | .failed => true
  | .cancelled => true
  | _ => false

/-- Modelled from the spec: the allowed transitions of the missing
dispatcher's state machine (spec §4.4): `pending → running`,
`running → completed/failed/cancelled`, and the direct `pending →
failed/cancelled` for launch failure and pre-dispatch cancellation. -/
def canStep : JobStatus → JobStatus → Bool
  | .pending, .running => true
  | .running, .completed => true
  | .running, .failed => true
  | .running, .cancelled => true
  | .pending, .failed => true
  | .pending, .cancelled => true
  | _, _ => false

/-- Progress rank of a status: `pending` before `running` before any
terminal state. -/
def statusRank : JobStatus → Nat
  | .pending => 0
  | .running => 1
  | _ => 2

/-- One observation step of a poller: the status is unchanged or has made an
allowed transition. -/
def Obs (a b : JobStatus) : Prop := a = b ∨ canStep a b = true

instance : DecidableRel Obs := fun a b =>
  inferInstanceAs (Decidable (a = b ∨ canStep a b = true))

/-- A sequence of status values observed over a job's lifetime: consecutive
observations are related by `Obs`. -/
def ValidTrace (l : List JobStatus) : Prop := l.Chain' Obs

instance (l : List JobStatus) : Decidable (ValidTrace l) :=
  inferInstanceAs (Decidable (l.Chain' Obs))

/-- Modelled from the spec: the fields of a job record that the query API
reads (spec §3); the missing `jobs/manager.py` owns the full record. -/
structure Job where
  status : JobStatus
  log : List String
  result : Option String
  error : Option String
  deriving DecidableEq, Repr

/-- Modelled from the spec: the registry mapping job id to record
(spec §4.3). -/
abbrev Registry := List (String × Job)

/-- Registry lookup by job id. -/
def lookupJob (reg : Registry) (id : String) : Option Job :=
  (reg.find? (fun p => p.1 == id)).map Prod.snd

/-- Per-record update in the registry. -/
def updateJob (reg : Registry) (id : String) (f : Job → Job) : Registry :=
  reg.map (fun p => if p.1 == id then (p.1, f p.2) else p)

/-- Modelled from the spec: tail selection of `get_job_log` (spec §4.2):
the last `tail` lines when `tail > 0` (all of them when the log is shorter),
the whole log when `tail = 0`. -/
def logTail (log : List String) (tail : Nat) : List String :=
  if tail = 0 then log else log.drop (log.length - tail)

/-- Response of `get_job_log`. -/
inductive LogResponse where
  | ok (lines : List String) (total_lines : Nat)
  | notFoundError (id : String)
  deriving DecidableEq, Repr

/-- Response of `get_job_status`. -/
inductive StatusResponse where
  | ok (status : JobStatus)
  | notFoundError (id : String)
  deriving DecidableEq, Repr

/-- Response of `get_job_result`. -/
inductive ResultResponse where
  | ok (result : String)
  | notReady (status : JobStatus)
  | failedError (error : String)
  | notFoundError (id : String)
  deriving DecidableEq, Repr

/-- Response of `cancel_job`. -/
inductive CancelResponse where
  | ok (status : JobStatus)
  | notFoundError (id : String)
  deriving DecidableEq, Repr

/-- Modelled from the spec: `get_job_status` of the missing `jobs/manager.py`
(spec §4.5): a structured `NotFoundError` value for an unknown id, otherwise
the record's status. -/
def get_job_status (reg : Registry) (id : String) : StatusResponse :=
  match lookupJob reg id with
  | none => .notFoundError id
  | some j => .ok j.status

/-- Modelled from the spec: `get_job_result` of the missing `jobs/manager.py`
(spec §4.5): `NotFoundError` for an unknown id, the result when `completed`,
the error payload when `failed`, a structured "not ready" response
otherwise. -/
def get_job_result (reg : Registry) (id : String) : ResultResponse :=
  match lookupJob reg id with
  | none => .notFoundError id
  | some j =>
    match j.status with
    | .completed => .ok (j.result.getD "")
    | .failed => .failedError (j.error.getD "")
    | s => .notReady s

/-- Modelled from the spec: `get_job_log` of the missing `jobs/manager.py`
(spec §4.2, §4.5): `NotFoundError` for an unknown id, otherwise the selected
tail of the record's log together with the total line count. -/
def get_job_log (reg : Registry) (id : String) (tail : Nat) : LogResponse :=
  match lookupJob reg id with
  | none => .notFoundError id
  | some j => .ok (logTail j.log tail) j.log.length

/-- Modelled from the spec: `cancel_job` of the missing `jobs/manager.py`
(spec §4.4, §4.5): `NotFoundError` for an unknown id; a no-op acknowledging
the actual terminal status for a job already terminal; otherwise the job is
moved to `cancelled` and that status acknowledged. -/
def cancel_job (reg : Registry) (id : String) : Registry × CancelResponse :=
  match lookupJob reg id with
  | none => (reg, .notFoundError id)
  | some j =>
    if isTerminal j.status then (reg, .ok j.status)
    else (updateJob reg id (fun j0 => { j0 with status := .cancelled }),
          .ok .cancelled)

/-! ### Submit tools (`src/server.py`) -/

/-- Split a character list at every `/` (the separators are dropped). -/
def splitSlash : List Char → List (List Char)
  | [] => [[]]
  | c :: cs =>
    if c = '/' then [] :: splitSlash cs
    else ((c :: (splitSlash cs).headD []) :: (splitSlash cs).tail)

/-- Python's `pathlib.Path(p).name`: the last path component, with empty and
`.` components dropped. -/
def pathName (p : String) : String :=
  String.mk (((splitSlash p.data).filter
    (fun c => !(c == [] || c == ['.']))).getLastD [])

/-- Python's `pathlib.Path(p).stem`: the name without its suffix, where the
suffix starts at the last `.` provided that dot is neither the first nor the
last character of the name. -/
def pathStem (p : String) : String :=
  let n := (pathName p).data
  let k := (n.reverse.takeWhile (fun c => !(c == '.'))).length
  if n.contains '.' && decide (1 ≤ k) && decide (k ≤ n.length - 2) then
    String.mk (n.take (n.length - 1 - k))
  else String.mk n

/-- Python's `a or b` for an optional string `a`: `b` when `a` is `None` or
empty, `a` otherwise. -/
def pyOr (a : Option String) (b : String) : String :=
  match a with
  | some s => if s = "" then b else s
  | none => b

/-- What a `submit_*` tool of `src/server.py` passes to
`job_manager.submit_job`: the script path, the argument mapping and the job
name. -/
structure SubmitCall where
  script_path : String
  args : List (String × Option ArgValue)
  job_name : String
  deriving DecidableEq, Repr

/-- Embedding of `submit_monomer_prediction` from `src/server.py` (lines 139–152): the
submission record handed to the job manager; the job name defaults to
`"monomer_"` plus the input file's stem. -/
def submit_monomer_prediction (scripts_dir input_file : String)
    (model_preset db_preset max_template_date : String)
    (data_dir output_dir job_name : Option String) : SubmitCall :=
  { script_path := scripts_dir ++ "/monomer_prediction.py",
    args := [("input", some (.str input_file)),
             ("model_preset", some (.str model_preset)),
             ("db_preset", some (.str db_preset)),
             ("max_template_date", some (.str max_template_date)),
             ("data_dir", data_dir.map .str),
             ("output", output_dir.map .str)],
    job_name := pyOr job_name ("monomer_" ++ pathStem input_file) }

/-- Embedding of `submit_multimer_prediction` from `src/server.py` (lines 193–207): the
job name defaults to `"multimer_"` plus the input file's stem. -/
def submit_multimer_prediction (scripts_dir input_file : String)
    (model_preset db_preset : String) (num_predictions_per_model : Int)
    (max_template_date : String)
    (data_dir output_dir job_name : Option String) : SubmitCall :=
  { script_path := scripts_dir ++ "/multimer_prediction.py",
    args := [("input", some (.str input_file)),
             ("model_preset", some (.str model_preset)),
             ("db_preset", some (.str db_preset)),
             ("num_predictions", some (.int num_predictions_per_model)),
             ("max_template_date", some (.str max_template_date)),
             ("data_dir", data_dir.map .str),
             ("output", output_dir.map .str)],
    job_name := pyOr job_name ("multimer_" ++ pathStem input_file) }

/-- Embedding of `submit_batch_prediction` from `src/server.py` (lines 247–260): the job
name defaults to `"batch_"` plus the input directory's name. -/
def submit_batch_prediction (scripts_dir input_dir : String)
    (db_preset max_template_date : String) (num_predictions_per_model : Int)
    (data_dir output_dir job_name : Option String) : SubmitCall :=
  { script_path := scripts_dir ++ "/batch_prediction.py",
    args := [("input_dir", some (.str input_dir)),
             ("db_preset", some (.str db_preset)),
             ("max_template_date", some (.str max_template_date)),
             ("num_predictions", some (.int num_predictions_per_model)),
             ("data_dir", data_dir.map .str),
             ("output", output_dir.map .str)],
    job_name := pyOr job_name ("batch_" ++ pathName input_dir) }

end AF2

namespace AF2

/-- Auxiliary: `"homo-" ++ n ++ "mer"` is never the string `"monomer"`
(the lengths differ). -/
lemma homoMer_ne_monomer (n : Nat) : ("homo-" ++ toString n ++ "mer") ≠ "monomer" := by
  intro h
  have hl := congrArg String.length h
  rw [String.length_append, String.length_append] at hl
  have h1 : ("homo-").length = 5 := rfl
  have h2 : ("mer").length = 3 := rfl
  have h3 : ("monomer").length = 7 := rfl
  omega

/-- C1 (amended): every keyword argument whose value is present and not
boolean is rendered as `--name=value` with underscores in its name replaced
by hyphens; the fixed named arguments `model_preset`, `db_preset`,
`max_template_date`, `data_dir` and `num_predictions_per_model` are instead
rendered with their declared names unchanged (underscores preserved). -/
theorem c1_kwargs_hyphenated_fixed_args_underscored
    (fasta_path output_dir alphafold_script : String) (data_dir : Option String)
    (model_preset db_preset max_template_date : String)
    (num_predictions_per_model : Option Int)
    (kwargs : List (String × Option ArgValue)) (k : String) (v : ArgValue)
    (hmem : (k, some v) ∈ kwargs) (hnb : v.isBool = false) :
    ("--" ++ cliKey k ++ "=" ++ argValueStr v) ∈
        build_alphafold_command fasta_path output_dir alphafold_script data_dir
          model_preset db_preset max_template_date num_predictions_per_model kwargs
    ∧ ("--model_preset=" ++ model_preset) ∈
        build_alphafold_command fasta_path output_dir alphafold_script data_dir
          model_preset db_preset max_template_date num_predictions_per_model kwargs
    ∧ ("--db_preset=" ++ db_preset) ∈
        build_alphafold_command fasta_path output_dir alphafold_script data_dir
          model_preset db_preset max_template_date num_predictions_per_model kwargs
    ∧ ("--max_template_date=" ++ max_template_date) ∈
        build_alphafold_command fasta_path output_dir alphafold_script data_dir
          model_preset db_preset max_template_date num_predictions_per_model kwargs
    ∧ (∀ d : String, data_dir = some d → d ≠ "" →
        ("--data_dir=" ++ d) ∈
          build_alphafold_command fasta_path output_dir alphafold_script data_dir
            model_preset db_preset max_template_date num_predictions_per_model kwargs)
    ∧ (∀ n : Int, num_predictions_per_model = some n →
        ("--num_predictions_per_model=" ++ toString n) ∈
          build_alphafold_command fasta_path output_dir alphafold_script data_dir
            model_preset db_preset max_template_date num_predictions_per_model kwargs) := by
  refine ⟨?_, ?_, ?_, ?_, ?_, ?_⟩
  · simp only [build_alphafold_command, List.mem_append]
    right
    rw [List.mem_flatMap]
    refine ⟨(k, some v), hmem, ?_⟩
    cases v with
    | str s => simp [renderKwarg]
    | int n => simp [renderKwarg]
    | bool b => simp [ArgValue.isBool] at hnb
  · simp [build_alphafold_command]
  · simp [build_alphafold_command]
  · simp [build_alphafold_command]
  · intro d hd hne
    subst hd
    simp [build_alphafold_command, hne]
  · intro n hn
    subst hn
    simp [build_alphafold_command]

/-- C1 witness: the amended theorem applied at a concrete invocation. -/
theorem c1_kwargs_hyphenated_fixed_args_underscored_witness :
    ("--use-gpu=x" ∈
      build_alphafold_command "in.fasta" "out" "run.py" (some "db") "monomer"
        "reduced_dbs" "2022-01-01" (some 5) [("use_gpu", some (.str "x"))])
    ∧ ("--model_preset=monomer" ∈
      build_alphafold_command "in.fasta" "out" "run.py" (some "db") "monomer"
        "reduced_dbs" "2022-01-01" (some 5) [("use_gpu", some (.str "x"))])
    ∧ ("--data_dir=db" ∈
      build_alphafold_command "in.fasta" "out" "run.py" (some "db") "monomer"
        "reduced_dbs" "2022-01-01" (some 5) [("use_gpu", some (.str "x"))])
    ∧ ("--num_predictions_per_model=5" ∈
      build_alphafold_command "in.fasta" "out" "run.py" (some "db") "monomer"
        "reduced_dbs" "2022-01-01" (some 5) [("use_gpu", some (.str "x"))]) := by
  have h := c1_kwargs_hyphenated_fixed_args_underscored "in.fasta" "out" "run.py"
    (some "db") "monomer" "reduced_dbs" "2022-01-01" (some 5)
    [("use_gpu", some (.str "x"))] "use_gpu" (.str "x") (by decide) (by decide)
  exact ⟨h.1, h.2.1, h.2.2.2.2.1 "db" rfl (by decide), h.2.2.2.2.2 5 rfl⟩

/-- C1 counterexample: at a concrete invocation the fixed named argument
`model_preset` is NOT rendered with its underscore replaced by a hyphen
(`--model-preset=...` is absent); it appears as `--model_preset=...`. -/
theorem c1_counterexample :
    ("--model-preset=monomer" ∉
      build_alphafold_command "in.fasta" "out" "run.py" none "monomer"
        "reduced_dbs" "2022-01-01" none [])
    ∧ ("--model_preset=monomer" ∈
      build_alphafold_command "in.fasta" "out" "run.py" none "monomer"
        "reduced_dbs" "2022-01-01" none []) := by
  decide

/-- C2: an absent (`None`) argument contributes no token to the rendered
argv — the optional fixed arguments `data_dir` and `num_predictions_per_model`
vanish when absent, and a `None`-valued keyword argument renders to nothing —
while a boolean keyword argument contributes exactly the presence-only token
`--name` when true and no token when false. -/
theorem c2_absent_omitted_bool_flag
    (fasta_path output_dir alphafold_script : String) (data_dir : Option String)
    (model_preset db_preset max_template_date : String)
    (num_predictions_per_model : Option Int)
    (kwargs kwargs₂ : List (String × Option ArgValue)) (k : String)
    (v : Option ArgValue) :
    build_alphafold_command fasta_path output_dir alphafold_script none
        model_preset db_preset max_template_date none kwargs =
      ["python", alphafold_script,
       "--fasta_paths=" ++ fasta_path,
       "--output_dir=" ++ output_dir,
       "--model_preset=" ++ model_preset,
       "--db_preset=" ++ db_preset,
       "--max_template_date=" ++ max_template_date] ++ kwargs.flatMap renderKwarg
    ∧ build_alphafold_command fasta_path output_dir alphafold_script data_dir
        model_preset db_preset max_template_date num_predictions_per_model
        (kwargs ++ (k, v) :: kwargs₂) =
      build_alphafold_command fasta_path output_dir alphafold_script data_dir
        model_preset db_preset max_template_date num_predictions_per_model kwargs
      ++ renderKwarg (k, v) ++ kwargs₂.flatMap renderKwarg
    ∧ renderKwarg (k, none) = []
    ∧ renderKwarg (k, some (.bool true)) = ["--" ++ cliKey k]
    ∧ renderKwarg (k, some (.bool false)) = [] := by
  refine ⟨?_, ?_, rfl, rfl, rfl⟩
  · simp [build_alphafold_command]
  · simp [build_alphafold_command, List.flatMap_append]

/-- C3: for a registered job, `get_job_log` returns the selected tail of the
job's log: for `tail > 0` a suffix of the log of length `min tail (log
length)` — the last `tail` lines, or all of them when the log is shorter —
for `tail = 0` the whole log, and the empty sequence when the job has
produced no output. -/
theorem c3_get_job_log_tail_semantics (reg : Registry) (id : String)
    (tail : Nat) (j : Job) (hj : lookupJob reg id = some j) :
    get_job_log reg id tail = .ok (logTail j.log tail) j.log.length
    ∧ (0 < tail →
        j.log.take (j.log.length - tail) ++ logTail j.log tail = j.log
        ∧ (logTail j.log tail).length = min tail j.log.length)
    ∧ logTail j.log 0 = j.log
    ∧ (j.log = [] → logTail j.log tail = []) := by
  refine ⟨by simp [get_job_log, hj], ?_, by simp [logTail], ?_⟩
  · intro htail
    have hne : ¬ tail = 0 := by omega
    refine ⟨?_, ?_⟩
    · rw [logTail, if_neg hne]
      exact List.take_append_drop _ _
    · rw [logTail, if_neg hne, List.length_drop]
      omega
  · intro hlog
    simp [logTail, hlog]

/-- C3 witness: the theorem applied to a concrete registry and job. -/
theorem c3_get_job_log_tail_semantics_witness :
    lookupJob [("j1", ⟨.running, ["l1", "l2", "l3"], none, none⟩)] "j1"
      = some ⟨.running, ["l1", "l2", "l3"], none, none⟩
    ∧ (get_job_log [("j1", ⟨.running, ["l1", "l2", "l3"], none, none⟩)] "j1" 2
        = .ok (logTail ["l1", "l2", "l3"] 2) 3
      ∧ (0 < 2 →
          (["l1", "l2", "l3"] : List String).take (3 - 2)
              ++ logTail ["l1", "l2", "l3"] 2 = ["l1", "l2", "l3"]
          ∧ (logTail ["l1", "l2", "l3"] 2).length = min 2 3)
      ∧ logTail ["l1", "l2", "l3"] 0 = ["l1", "l2", "l3"]
      ∧ ((["l1", "l2", "l3"] : List String) = [] →
          logTail ["l1", "l2", "l3"] 2 = [])) :=
  ⟨by decide,
   c3_get_job_log_tail_semantics [("j1", ⟨.running, ["l1", "l2", "l3"], none, none⟩)]
     "j1" 2 ⟨.running, ["l1", "l2", "l3"], none, none⟩ (by decide)⟩

/-- C5: cancelling a job that is already in a terminal status is a no-op
that acknowledges the job's actual terminal status (not an error), so a
second `cancel_job` returns exactly the same answer. -/
theorem c5_cancel_idempotent_on_terminal (reg : Registry) (id : String)
    (j : Job) (hj : lookupJob reg id = some j)
    (ht : isTerminal j.status = true) :
    cancel_job reg id = (reg, .ok j.status)
    ∧ cancel_job (cancel_job reg id).1 id = cancel_job reg id := by
  have h1 : cancel_job reg id = (reg, .ok j.status) := by
    simp [cancel_job, hj, ht]
  exact ⟨h1, by simp [h1]⟩

/-- C5 witness: the theorem applied to a concrete registry with a completed
job. -/
theorem c5_cancel_idempotent_on_terminal_witness :
    cancel_job [("j1", ⟨.completed, [], some "r", none⟩)] "j1"
      = ([("j1", ⟨.completed, [], some "r", none⟩)], .ok .completed)
    ∧ cancel_job (cancel_job [("j1", ⟨.completed, [], some "r", none⟩)] "j1").1 "j1"
      = cancel_job [("j1", ⟨.completed, [], some "r", none⟩)] "j1" :=
  c5_cancel_idempotent_on_terminal [("j1", ⟨.completed, [], some "r", none⟩)]
    "j1" ⟨.completed, [], some "r", none⟩ (by decide) (by decide)

/-- C6: every query operation invoked with a job id that is not in the
registry returns the structured `NotFoundError` value (and `cancel_job`
leaves the registry untouched); being total functions into response types,
the operations always deliver a response rather than propagating an
exception. -/
theorem c6_unknown_id_not_found (reg : Registry) (id : String) (tail : Nat)
    (h : lookupJob reg id = none) :
    get_job_status reg id = .notFoundError id
    ∧ get_job_result reg id = .notFoundError id
    ∧ get_job_log reg id tail = .notFoundError id
    ∧ (cancel_job reg id).2 = .notFoundError id
    ∧ (cancel_job reg id).1 = reg := by
  simp [get_job_status, get_job_result, get_job_log, cancel_job, h]

/-- C6 witness: the theorem applied to a registry without the queried id. -/
theorem c6_unknown_id_not_found_witness :
    get_job_status [("j1", ⟨.running, [], none, none⟩)] "nope" = .notFoundError "nope"
    ∧ get_job_result [("j1", ⟨.running, [], none, none⟩)] "nope" = .notFoundError "nope"
    ∧ get_job_log [("j1", ⟨.running, [], none, none⟩)] "nope" 5 = .notFoundError "nope"
    ∧ (cancel_job [("j1", ⟨.running, [], none, none⟩)] "nope").2 = .notFoundError "nope"
    ∧ (cancel_job [("j1", ⟨.running, [], none, none⟩)] "nope").1
      = [("j1", ⟨.running, [], none, none⟩)] :=
  c6_unknown_id_not_found [("j1", ⟨.running, [], none, none⟩)] "nope" 5 (by decide)

/-- C7: `analyze_fasta_content` classifies a FASTA dictionary as multimer
exactly when it holds more than one sequence, and reports `complex_type =
"monomer"` exactly when it holds one. -/
theorem c7_multimer_iff_many_sequences (sequences : List (String × String)) :
    ((analyze_fasta_content sequences).is_multimer = true ↔
      1 < (analyze_fasta_content sequences).num_sequences)
    ∧ ((analyze_fasta_content sequences).complex_type = "monomer" ↔
      (analyze_fasta_content sequences).num_sequences = 1) := by
  constructor
  · simp [analyze_fasta_content]
  · show (if sequences.length = 1 then "monomer" else _) = "monomer" ↔ _
    by_cases h1 : sequences.length = 1
    · simp [analyze_fasta_content, h1]
    · rw [if_neg h1]
      refine iff_of_false ?_ (by simpa [analyze_fasta_content] using h1)
      by_cases h2 : sequences.length = 2
      · rw [if_pos h2]
        split
        · decide
        · decide
      · rw [if_neg h2]
        split
        · exact homoMer_ne_monomer _
        · decide

/-- C8: when no job name is supplied, the submit tools derive one —
`"monomer_"`/`"multimer_"` plus the input file's stem, `"batch_"` plus the
input directory's name — and a supplied non-empty job name is passed through
unchanged. -/
theorem c8_default_job_names (scripts_dir input_file input_dir : String)
    (mp mp2 dp mtd : String) (npm : Int) (dd od : Option String)
    (s : String) (hs : s ≠ "") :
    (submit_monomer_prediction scripts_dir input_file mp dp mtd dd od none).job_name
      = "monomer_" ++ pathStem input_file
    ∧ (submit_multimer_prediction scripts_dir input_file mp2 dp npm mtd dd od none).job_name
      = "multimer_" ++ pathStem input_file
    ∧ (submit_batch_prediction scripts_dir input_dir dp mtd npm dd od none).job_name
      = "batch_" ++ pathName input_dir
    ∧ (submit_monomer_prediction scripts_dir input_file mp dp mtd dd od (some s)).job_name = s
    ∧ (submit_multimer_prediction scripts_dir input_file mp2 dp npm mtd dd od (some s)).job_name = s
    ∧ (submit_batch_prediction scripts_dir input_dir dp mtd npm dd od (some s)).job_name = s := by
  refine ⟨rfl, rfl, rfl, ?_, ?_, ?_⟩ <;>
    simp [submit_monomer_prediction, submit_multimer_prediction,
      submit_batch_prediction, pyOr, hs]

/-- C8 witness: the theorem applied to concrete inputs. -/
theorem c8_default_job_names_witness :
    (submit_monomer_prediction "scripts" "examples/data/insulin_a.fasta"
        "monomer" "reduced_dbs" "2022-01-01" none none none).job_name
      = "monomer_" ++ pathStem "examples/data/insulin_a.fasta"
    ∧ (submit_multimer_prediction "scripts" "examples/data/insulin_a.fasta"
        "multimer" "reduced_dbs" 5 "2022-01-01" none none none).job_name
      = "multimer_" ++ pathStem "examples/data/insulin_a.fasta"
    ∧ (submit_batch_prediction "scripts" "examples/data/batch"
        "reduced_dbs" "2022-01-01" 5 none none none).job_name
      = "batch_" ++ pathName "examples/data/batch"
    ∧ (submit_monomer_prediction "scripts" "examples/data/insulin_a.fasta"
        "monomer" "reduced_dbs" "2022-01-01" none none (some "my_job")).job_name = "my_job"
    ∧ (submit_multimer_prediction "scripts" "examples/data/insulin_a.fasta"
        "multimer" "reduced_dbs" 5 "2022-01-01" none none (some "my_job")).job_name = "my_job"
    ∧ (submit_batch_prediction "scripts" "examples/data/batch"
        "reduced_dbs" "2022-01-01" 5 none none (some "my_job")).job_name = "my_job" :=
  c8_default_job_names "scripts" "examples/data/insulin_a.fasta"
    "examples/data/batch" "monomer" "multimer" "reduced_dbs" "2022-01-01" 5
    none none "my_job" (by decide)

/-- An observation step never decreases the progress rank. -/
lemma obs_rank_le {a b : JobStatus} (h : Obs a b) :
    statusRank a ≤ statusRank b := by
  rcases h with rfl | h
  · exact le_refl _
  · revert h
    cases a <;> cases b <;> decide

/-- An observation step out of a terminal status leaves it unchanged. -/
lemma obs_terminal_fixed {a b : JobStatus} (h : Obs a b)
    (ht : isTerminal a = true) : b = a := by
  rcases h with rfl | h
  · rfl
  · revert h ht
    cases a <;> cases b <;> decide

/-- Only `pending` has rank `0`, only `running` has rank `1`. -/
lemma statusRank_cases (s : JobStatus) :
    (statusRank s = 0 ↔ s = .pending) ∧ (statusRank s = 1 ↔ s = .running)
    ∧ statusRank s ≤ 2 := by
  cases s <;> simp [statusRank]

/-- Along a valid trace, the progress rank is monotone in the position. -/
lemma trace_rank_mono (l : List JobStatus) (hl : ValidTrace l) :
    ∀ i j (hi : i < l.length) (hj : j < l.length), i ≤ j →
      statusRank (l.get ⟨i, hi⟩) ≤ statusRank (l.get ⟨j, hj⟩) := by
  have hstep := List.chain'_iff_get.mp hl
  intro i j hi hj hij
  induction j with
  | zero =>
    have h0 : i = 0 := Nat.le_zero.mp hij
    subst h0
    exact le_refl _
  | succ n ih =>
    rcases Nat.eq_or_lt_of_le hij with h | h
    · subst h
      exact le_refl _
    · have hin : i ≤ n := by omega
      have hn : n < l.length := by omega
      exact le_trans (ih hn hin) (obs_rank_le (hstep n (by omega)))

/-- Along a valid trace, a terminal status persists unchanged. -/
lemma trace_terminal_fixed (l : List JobStatus) (hl : ValidTrace l) :
    ∀ i j (hi : i < l.length) (hj : j < l.length), i ≤ j →
      isTerminal (l.get ⟨i, hi⟩) = true → l.get ⟨j, hj⟩ = l.get ⟨i, hi⟩ := by
  have hstep := List.chain'_iff_get.mp hl
  intro i j hi hj hij hterm
  induction j with
  | zero =>
    have h0 : i = 0 := Nat.le_zero.mp hij
    subst h0
    rfl
  | succ n ih =>
    rcases Nat.eq_or_lt_of_le hij with h | h
    · subst h
      rfl
    · have hin : i ≤ n := by omega
      have hn : n < l.length := by omega
      have hprev : l.get ⟨n, hn⟩ = l.get ⟨i, hi⟩ := ih hn hin
      have := obs_terminal_fixed (hstep n (by omega)) (hprev ▸ hterm)
      rw [this, hprev]

/-- C4: along any valid observation trace of a job's status, the progress
rank `pending < running < terminal` is non-decreasing; once the status has
left `pending` it is never `pending` again; a terminal status never changes;
and once the status has left `running` it is never `running` again. -/
theorem c4_status_monotonic_irreversible (l : List JobStatus)
    (hl : ValidTrace l) (i j : Nat) (hi : i < l.length) (hj : j < l.length)
    (hij : i ≤ j) :
    statusRank (l.get ⟨i, hi⟩) ≤ statusRank (l.get ⟨j, hj⟩)
    ∧ (l.get ⟨i, hi⟩ ≠ .pending → l.get ⟨j, hj⟩ ≠ .pending)
    ∧ (isTerminal (l.get ⟨i, hi⟩) = true → l.get ⟨j, hj⟩ = l.get ⟨i, hi⟩)
    ∧ (∀ k (hk : k < l.length), j ≤ k → l.get ⟨i, hi⟩ = .running →
        l.get ⟨j, hj⟩ ≠ .running → l.get ⟨k, hk⟩ ≠ .running) := by
  refine ⟨trace_rank_mono l hl i j hi hj hij, ?_, ?_, ?_⟩
  · intro hip hjp
    have h1 : statusRank (l.get ⟨i, hi⟩) ≤ statusRank (l.get ⟨j, hj⟩) :=
      trace_rank_mono l hl i j hi hj hij
    rw [((statusRank_cases (l.get ⟨j, hj⟩)).1.mpr hjp : _)] at h1
    exact hip ((statusRank_cases (l.get ⟨i, hi⟩)).1.mp (Nat.le_zero.mp h1))
  · exact trace_terminal_fixed l hl i j hi hj hij
  · intro k hk hjk hir hjr hkr
    have hmon := trace_rank_mono l hl i j hi hj hij
    have hmon2 := trace_rank_mono l hl j k hj hk hjk
    rw [hir] at hmon
    rw [hkr] at hmon2
    have hrj0 : statusRank (l.get ⟨j, hj⟩) ≠ 1 := by
      intro h1
      exact hjr ((statusRank_cases (l.get ⟨j, hj⟩)).2.1.mp h1)
    have hle2 := (statusRank_cases (l.get ⟨j, hj⟩)).2.2
    have : statusRank JobStatus.running = 1 := rfl
    omega

/-- C4 witness: the theorem applied to the concrete trace
`pending → running → completed`. -/
theorem c4_status_monotonic_irreversible_witness :
    ValidTrace [.pending, .running, .completed]
    ∧ (statusRank (([JobStatus.pending, .running, .completed]).get ⟨0, by decide⟩)
        ≤ statusRank (([JobStatus.pending, .running, .completed]).get ⟨2, by decide⟩)
      ∧ ((([JobStatus.pending, .running, .completed]).get ⟨0, by decide⟩ ≠ .pending) →
          ([JobStatus.pending, .running, .completed]).get ⟨2, by decide⟩ ≠ .pending)
      ∧ (isTerminal (([JobStatus.pending, .running, .completed]).get ⟨0, by decide⟩) = true →
          ([JobStatus.pending, .running, .completed]).get ⟨2, by decide⟩
            = ([JobStatus.pending, .running, .completed]).get ⟨0, by decide⟩)
      ∧ (∀ k (hk : k < ([JobStatus.pending, .running, .completed]).length), 2 ≤ k →
          ([JobStatus.pending, .running, .completed]).get ⟨0, by decide⟩ = .running →
          ([JobStatus.pending, .running, .completed]).get ⟨2, by decide⟩ ≠ .running →
          ([JobStatus.pending, .running, .completed]).get ⟨k, hk⟩ ≠ .running)) := by
  have hv : ValidTrace [.pending, .running, .completed] :=
    List.Chain.cons (Or.inr rfl) (List.Chain.cons (Or.inr rfl) List.Chain.nil)
  exact ⟨hv,
    c4_status_monotonic_irreversible [.pending, .running, .completed]
      hv 0 2 (by decide) (by decide) (by decide)⟩

/-- Invariant of the batch counting loop: the counter total grows by one per
file and `processed` collects the per-file results in order. -/
lemma batch_foldl_invariant (files : List String) (proc : String → ProcResult)
    (st : BatchCounters) :
    ((files.foldl (fun s f => batchStep s (proc f)) st).monomer_count
      + (files.foldl (fun s f => batchStep s (proc f)) st).multimer_count
      + (files.foldl (fun s f => batchStep s (proc f)) st).error_count
      = st.monomer_count + st.multimer_count + st.error_count + files.length)
    ∧ (files.foldl (fun s f => batchStep s (proc f)) st).processed
      = st.processed ++ files.map proc := by
  induction files generalizing st with
  | nil => simp
  | cons f fs ih =>
    rw [List.foldl_cons]
    rcases ih (batchStep st (proc f)) with ⟨ihsum, ihproc⟩
    constructor
    · rw [ihsum]
      cases hp : proc f with
      | ok file a =>
        by_cases hm : a.is_multimer <;> simp [batchStep, hm, hp] <;> omega
      | err file msg =>
        simp only [batchStep, hp, List.length_cons]
        omega
    · rw [ihproc]
      cases hp : proc f with
      | ok file a =>
        by_cases hm : a.is_multimer <;> simp [batchStep, hm, hp]
      | err file msg => simp [batchStep, hp]

/-- C10: when at least one FASTA file is found, `run_batch_prediction`
returns the full summary record in which the monomer, multimer and error
counters partition the files, `processed` holds one result per file in the
sorted filename order produced by `find_fasta_files`, and the `success` flag
is set exactly when no file errored. -/
theorem c10_batch_counters_partition (listing : List String)
    (proc : String → ProcResult) (hne : find_fasta_files listing ≠ []) :
    ∃ success monomer multimer error processed,
      run_batch_prediction listing proc
        = .ran success (find_fasta_files listing).length monomer multimer error processed
      ∧ monomer + multimer + error = (find_fasta_files listing).length
      ∧ processed = (find_fasta_files listing).map proc
      ∧ processed.length = (find_fasta_files listing).length
      ∧ (success = true ↔ error = 0)
      ∧ List.Sorted (· ≤ ·) (find_fasta_files listing) := by
  rcases batch_foldl_invariant (find_fasta_files listing) proc ⟨0, 0, 0, []⟩
    with ⟨hsum, hproc⟩
  refine ⟨decide ((List.foldl (fun s f => batchStep s (proc f)) ⟨0, 0, 0, []⟩
      (find_fasta_files listing)).error_count = 0),
    (List.foldl (fun s f => batchStep s (proc f)) ⟨0, 0, 0, []⟩
      (find_fasta_files listing)).monomer_count,
    (List.foldl (fun s f => batchStep s (proc f)) ⟨0, 0, 0, []⟩
      (find_fasta_files listing)).multimer_count,
    (List.foldl (fun s f => batchStep s (proc f)) ⟨0, 0, 0, []⟩
      (find_fasta_files listing)).error_count,
    (List.foldl (fun s f => batchStep s (proc f)) ⟨0, 0, 0, []⟩
      (find_fasta_files listing)).processed, ?_, ?_, ?_, ?_, ?_, ?_⟩
  · simp only [run_batch_prediction]
    rw [if_neg hne]
  · simpa using hsum
  · simpa using hproc
  · rw [hproc]
    simp
  · exact decide_eq_true_iff
  · unfold find_fasta_files
    exact List.sorted_insertionSort _ _

/-- Unfolding of `chunks80` as the recursion of the Python wrapping loop. -/
lemma chunks80_eq (s : List Char) :
    chunks80 s = if s = [] then [] else s.take 80 :: chunks80 (s.drop 80) := by
  by_cases h : s = []
  · subst h
    simp [chunks80]
  · rw [if_neg h]
    have hL : 0 < s.length := List.length_pos.mpr h
    have hn : (s.length + 79) / 80 = ((s.drop 80).length + 79) / 80 + 1 := by
      rw [List.length_drop]
      omega
    rw [chunks80, chunks80, hn, List.range_succ_eq_map]
    simp only [List.map_cons, List.map_map, Nat.mul_zero, List.drop_zero]
    congr 1
    apply List.map_congr_left
    intro j _
    simp only [Function.comp_apply, List.drop_drop]
    congr 2
    omega

/-- The wrapped chunks concatenate back to the original sequence. -/
lemma chunks80_flatten (s : List Char) : (chunks80 s).flatten = s := by
  rw [chunks80_eq]
  by_cases h : s = []
  · simp [h]
  · rw [if_neg h, List.flatten_cons, chunks80_flatten (s.drop 80)]
    exact List.take_append_drop _ _
termination_by s.length
decreasing_by
  simp only [List.length_drop]
  have := List.length_pos.mpr h
  omega

/-- A list whose characters all fail `p` is unchanged by `dropWhile p`. -/
lemma dropWhile_eq_self_forall (p : Char → Bool) (l : List Char)
    (h : ∀ c ∈ l, p c = false) : l.dropWhile p = l := by
  cases l with
  | nil => rfl
  | cons a t =>
    rw [List.dropWhile_cons, h a (List.mem_cons_self a t)]
    simp

/-- A whitespace-free line is unchanged by stripping. -/
lemma stripChars_eq_self_of_no_ws (l : List Char)
    (h : ∀ c ∈ l, isPyWhitespace c = false) : stripChars l = l := by
  rw [stripChars, dropWhile_eq_self_forall _ _ h,
    dropWhile_eq_self_forall _ _ (fun c hc => h c (List.mem_reverse.mp hc)),
    List.reverse_reverse]

/-- If `dropWhile p` leaves a non-empty list unchanged, its head fails
`p`. -/
lemma head_false_of_dropWhile_eq_self (p : Char → Bool) (a : Char)
    (t : List Char) (h : (a :: t).dropWhile p = a :: t) : p a = false := by
  by_cases hpa : p a = true
  · rw [List.dropWhile_cons, if_pos hpa] at h
    have hlen := congrArg List.length h
    have hle : (t.dropWhile p).length ≤ t.length :=
      List.Sublist.length_le (List.dropWhile_sublist p)
    simp at hlen
    omega
  · simpa using hpa

/-- Every chunk of a good sequence is a non-blank, non-header, already
stripped line. -/
lemma chunks80_good (s : List Char) (hs : GoodSeq s) :
    ∀ c ∈ chunks80 s, c ≠ [] ∧ stripChars c = c ∧ c.head? ≠ some '>' := by
  intro c hc
  rw [chunks80, List.mem_map] at hc
  obtain ⟨j, hj, rfl⟩ := hc
  rw [List.mem_range] at hj
  have hjL : 80 * j < s.length := by omega
  have hsub : ∀ ch ∈ (s.drop (80 * j)).take 80, ch ∈ s := fun ch h =>
    (List.drop_sublist _ _).subset ((List.take_sublist _ _).subset h)
  have hne : (s.drop (80 * j)).take 80 ≠ [] := by
    intro hnil
    have := congrArg List.length hnil
    simp [List.length_take, List.length_drop] at this
    omega
  refine ⟨hne, stripChars_eq_self_of_no_ws _ (fun ch h => (hs ch (hsub ch h)).1), ?_⟩
  intro hhead
  have hmem : '>' ∈ (s.drop (80 * j)).take 80 := by
    cases hh : (s.drop (80 * j)).take 80 with
    | nil => exact absurd hh hne
    | cons a t =>
      rw [hh] at hhead
      simp at hhead
      rw [hhead]
      exact List.mem_cons_self _ _
  exact (hs '>' (hsub '>' hmem)).2 rfl

/-- Stripping leaves the saved header line `'>' :: h` unchanged. -/
lemma stripChars_header (h : List Char) (hh : GoodHeader h) :
    stripChars ('>' :: h) = '>' :: h := by
  have hgt : isPyWhitespace '>' = false := rfl
  rw [stripChars, List.dropWhile_cons, hgt]
  simp only [Bool.false_eq_true, if_false, List.reverse_cons]
  cases hr : h.reverse with
  | nil =>
    have : h = [] := by simpa using congrArg List.reverse hr
    simp [this, List.dropWhile_cons, hgt]
  | cons a t =>
    have ha : isPyWhitespace a = false := by
      apply head_false_of_dropWhile_eq_self isPyWhitespace a t
      rw [← hr]
      exact hh.2.2.2.1
    rw [List.cons_append, List.dropWhile_cons, ha]
    simp only [Bool.false_eq_true, if_false]
    rw [← List.cons_append, ← hr]
    rw [List.reverse_append, List.reverse_reverse]
    rfl

/-- Feeding a run of non-blank, non-header, stripped lines into the
`load_fasta` loop appends their concatenation to the pending sequence. -/
lemma loadAux_chunkLines (cs : List (List Char)) (rest : List (List Char))
    (d : List (List Char × List Char)) (cur : Option (List Char))
    (acc : List Char)
    (hcs : ∀ c ∈ cs, c ≠ [] ∧ stripChars c = c ∧ c.head? ≠ some '>') :
    loadAux (cs ++ rest) d cur acc = loadAux rest d cur (acc ++ cs.flatten) := by
  induction cs generalizing acc with
  | nil => simp
  | cons c cs' ih =>
    obtain ⟨hne, hstrip, hhead⟩ := hcs c (List.mem_cons_self c cs')
    rw [List.cons_append, loadAux, hstrip, if_neg hhead, if_neg hne,
      ih _ (fun x hx => hcs x (List.mem_cons_of_mem c hx))]
    rw [List.flatten_cons, List.append_assoc]

/-- Processing the saved blocks of a good association list folds the
pending entry and every block into the dictionary in order. -/
lemma loadAux_save_blocks (m : List (List Char × List Char))
    (hgood : ∀ p ∈ m, GoodHeader p.1 ∧ GoodSeq p.2) :
    ∀ (d : List (List Char × List Char)) (h acc : List Char), h ≠ [] →
      loadAux (save_fasta m) d (some h) acc
        = m.foldl (fun d p => dictInsert d p.1 p.2) (dictInsert d h acc) := by
  induction m with
  | nil =>
    intro d h acc hh
    simp [save_fasta, loadAux, flushEntry, hh]
  | cons p t ih =>
    intro d h acc hh
    obtain ⟨gh, gs⟩ := hgood p (List.mem_cons_self p t)
    have hline : (if p.1.head? = some '>' then p.1 else '>' :: p.1) = '>' :: p.1 :=
      if_neg gh.2.1
    rw [save_fasta, List.flatMap_cons, hline, List.cons_append, loadAux,
      stripChars_header p.1 gh]
    rw [if_pos (show ('>' :: p.1).head? = some '>' from rfl)]
    show loadAux (chunks80 p.2 ++ t.flatMap _) (flushEntry d (some h) acc)
      (some p.1) [] = _
    rw [loadAux_chunkLines _ _ _ _ _ (chunks80_good p.2 gs)]
    rw [List.nil_append, chunks80_flatten]
    show loadAux (save_fasta t) _ (some p.1) p.2 = _
    have hflush : flushEntry d (some h) acc = dictInsert d h acc := by
      simp [flushEntry, hh]
    rw [hflush, ih (fun q hq => hgood q (List.mem_cons_of_mem p hq)) _ _ _ gh.1]
    rfl

/-- Folding `dictInsert` over entries whose keys are fresh and mutually
distinct appends them in order. -/
lemma foldl_dictInsert_fresh (m : List (List Char × List Char)) :
    ∀ (d : List (List Char × List Char)),
      (∀ p ∈ m, ∀ q ∈ d, q.1 ≠ p.1) → (m.map Prod.fst).Nodup →
      m.foldl (fun d p => dictInsert d p.1 p.2) d = d ++ m := by
  induction m with
  | nil => intro d _ _; simp
  | cons p t ih =>
    intro d hfresh hnd
    have hany : (d.any (fun q => q.1 = p.1)) = false := by
      rw [List.any_eq_false]
      intro q hq
      simpa using hfresh p (List.mem_cons_self p t) q hq
    rw [List.foldl_cons]
    show List.foldl _ (dictInsert d p.1 p.2) t = _
    rw [dictInsert, if_neg (by simp [hany])]
    have hnd' := hnd
    rw [List.map_cons, List.nodup_cons] at hnd'
    rw [ih (d ++ [(p.1, p.2)]) ?_ hnd'.2]
    · simp
    · intro r hr q hq
      rcases List.mem_append.mp hq with hq | hq
      · exact hfresh r (List.mem_cons_of_mem p hr) q hq
      · have : q = (p.1, p.2) := by simpa using hq
        subst this
        intro heq
        exact hnd'.1 (heq ▸ List.mem_map_of_mem Prod.fst hr)

/-- C9: `load_fasta` after `save_fasta` is the identity on every
header-to-sequence dictionary whose headers are non-empty, `>`-free at the
front, newline-free and without surrounding whitespace, and whose sequences
consist of non-whitespace, non-`>` characters — regardless of the
80-character wrapping applied on save. -/
theorem c9_save_load_roundtrip (m : List (List Char × List Char))
    (hnd : (m.map Prod.fst).Nodup)
    (hgood : ∀ p ∈ m, GoodHeader p.1 ∧ GoodSeq p.2) :
    load_fasta (save_fasta m) = m := by
  cases m with
  | nil => rfl
  | cons p t =>
    obtain ⟨gh, gs⟩ := hgood p (List.mem_cons_self p t)
    have hline : (if p.1.head? = some '>' then p.1 else '>' :: p.1) = '>' :: p.1 :=
      if_neg gh.2.1
    rw [load_fasta, save_fasta, List.flatMap_cons, hline, List.cons_append,
      loadAux, stripChars_header p.1 gh]
    rw [if_pos (show ('>' :: p.1).head? = some '>' from rfl)]
    show loadAux (chunks80 p.2 ++ t.flatMap _) (flushEntry [] none [])
      (some p.1) [] = _
    rw [loadAux_chunkLines _ _ _ _ _ (chunks80_good p.2 gs)]
    rw [List.nil_append, chunks80_flatten]
    show loadAux (save_fasta t) [] (some p.1) p.2 = _
    rw [loadAux_save_blocks t (fun q hq => hgood q (List.mem_cons_of_mem p hq))
      [] p.1 p.2 gh.1]
    have hd1 : dictInsert [] p.1 p.2 = [(p.1, p.2)] := rfl
    rw [hd1]
    have hnd' := hnd
    rw [List.map_cons, List.nodup_cons] at hnd'
    rw [foldl_dictInsert_fresh t [(p.1, p.2)] ?_ hnd'.2]
    · simp
    · intro r hr q hq
      have : q = (p.1, p.2) := by simpa using hq
      subst this
      intro heq
      exact hnd'.1 (heq ▸ List.mem_map_of_mem Prod.fst hr)

/-- C9 witness: the round trip at a concrete dictionary whose second
sequence is 100 characters long, so the save really wraps it over two
lines. -/
theorem c9_save_load_roundtrip_witness :
    load_fasta (save_fasta
      [("insulin_chain_a|Sample insulin A chain".data, "GIVEQCCTSICSLYQLENYCN".data),
       ("long".data, List.replicate 100 'A'),
       ("empty_seq".data, [])])
    = [("insulin_chain_a|Sample insulin A chain".data, "GIVEQCCTSICSLYQLENYCN".data),
       ("long".data, List.replicate 100 'A'),
       ("empty_seq".data, [])] :=
  c9_save_load_roundtrip
    [("insulin_chain_a|Sample insulin A chain".data, "GIVEQCCTSICSLYQLENYCN".data),
     ("long".data, List.replicate 100 'A'),
     ("empty_seq".data, [])]
    (by decide) (by decide)

/-- C10 witness: the theorem applied to a concrete one-file listing. -/
theorem c10_batch_counters_partition_witness :
    find_fasta_files ["insulin.fasta", "notes.txt"] ≠ []
    ∧ ∃ success monomer multimer error processed,
      run_batch_prediction ["insulin.fasta", "notes.txt"] (fun f => .err f "boom")
        = .ran success (find_fasta_files ["insulin.fasta", "notes.txt"]).length
            monomer multimer error processed
      ∧ monomer + multimer + error
          = (find_fasta_files ["insulin.fasta", "notes.txt"]).length
      ∧ processed
          = (find_fasta_files ["insulin.fasta", "notes.txt"]).map (fun f => .err f "boom")
      ∧ processed.length = (find_fasta_files ["insulin.fasta", "notes.txt"]).length
      ∧ (success = true ↔ error = 0)
      ∧ List.Sorted (· ≤ ·) (find_fasta_files ["insulin.fasta", "notes.txt"]) :=
  ⟨by decide,
   c10_batch_counters_partition ["insulin.fasta", "notes.txt"]
     (fun f => .err f "boom") (by decide)⟩

end AF2
